import Mathlib

/-!
Verification development for the code-sitter universal structural extractor,
language analyzer registry and TypeScript call-relationship extraction.

The Python sources are embedded shallowly:
- tree-sitter syntax trees become the mutual inductives `SNode` / `SForest`
  (a node carries the data tree-sitter exposes: type, named flag, byte range,
  row/column points, decoded text, and the field name assigned by its parent);
- Python dicts become association lists with in-place overwrite (`dictSet`)
  and first-match lookup (`dictLookup`), which matches dict semantics because
  `dictSet` keeps keys unique;
- Python string operations (strip, split, startswith, lower, in, replace,
  slicing) are re-implemented on `List Char` with Python semantics;
- the extractor classes `UniversalExtractor` / `TypeScriptExtractor`
  (analyzers/universal_extractor.py) become pure functions parameterised by
  the pattern table and the enrichment hook; a hook may fail
  (`Except String`), modelling a Python exception raised during enrichment;
- the analyzer registry (analyzers/registry.py) and the TypeScript call
  extraction (analyzers/languages/typescript.py) are embedded likewise.
-/

namespace CodeSitter

/-! ## Python string helpers (List Char based, so everything reduces) -/

/-- Python whitespace for `str.strip()`: space, tab, newline, return, vtab, formfeed. -/
def isPySpace (c : Char) : Bool :=
  c = ' ' ∨ c = '\t' ∨ c = '\n' ∨ c = '\r' ∨ c = '\x0b' ∨ c = '\x0c'

/-- Python `s.strip()` on a character list. -/
def pyStripL (l : List Char) : List Char :=
  ((l.dropWhile isPySpace).reverse.dropWhile isPySpace).reverse

/-- Python `s.strip()`. -/
def pyStrip (s : String) : String := String.mk (pyStripL s.toList)

/-- Python `s.startswith(p)`. -/
def pyStartswith (s p : String) : Bool := p.toList.isPrefixOf s.toList

/-- Python `sub in s` (substring containment) on lists. -/
def listContains : List Char → List Char → Bool
  | s, sub => if sub.isPrefixOf s then true
              else match s with
                   | [] => false
                   | _ :: r => listContains r sub

/-- Python `sub in s` (substring containment). -/
def pyIn (sub s : String) : Bool := listContains s.toList sub.toList

/-- Python `s.lower()` (ASCII is all we need). -/
def pyLower (s : String) : String := String.mk (s.toList.map Char.toLower)

/-- Python `s.split(sep)` for a one-character separator, on lists.
`[].split` of the empty string gives `[""]`, like Python. -/
def pySplitL (sep : Char) : List Char → List (List Char)
  | [] => [[]]
  | c :: rest =>
    if c = sep then [] :: pySplitL sep rest
    else match pySplitL sep rest with
         | [] => [[c]]
         | g :: gs => (c :: g) :: gs

/-- Python `s.split(sep)` for a one-character separator. -/
def pySplit (sep : Char) (s : String) : List String :=
  (pySplitL sep s.toList).map String.mk

/-- One step of Python `s.replace(old, new)`: fuel-indexed so that the
definition is structural and computes by reduction; `fuel = s.length` is
always enough because each step consumes at least one character. -/
def pyReplaceAux (old new : List Char) : Nat → List Char → List Char
  | 0, s => s
  | _ + 1, [] => []
  | fuel + 1, s@(c :: rest) =>
    if old ≠ [] ∧ old.isPrefixOf s then
      new ++ pyReplaceAux old new fuel (s.drop old.length)
    else
      c :: pyReplaceAux old new fuel rest

/-- Python `s.replace(old, new)` (all non-overlapping occurrences, left to right). -/
def pyReplace (s old new : String) : String :=
  String.mk (pyReplaceAux old.toList new.toList s.toList.length s.toList)

/-- Python slice `s[:n]`. -/
def pyTake (n : Nat) (s : String) : String := String.mk (s.toList.take n)

/-- Python slice `s[a:b]` for nonnegative bounds. -/
def pySlice (a b : Nat) (s : String) : String :=
  String.mk ((s.toList.take b).drop a)

/-- Python slice `s[1:-1]`. -/
def pySlice1m1 (s : String) : String := String.mk (s.toList.drop 1).dropLast

/-- Python truthiness of an optional string (`None` and `""` are falsy). -/
def pyTruthy : Option String → Bool
  | none => false
  | some s => s ≠ ""

/-- Python `a or b` for an optional string with a default. -/
def pyOrElse (a : Option String) (b : String) : String :=
  if pyTruthy a then a.getD b else b

/-- UTF-8 byte length of a decoded string, as `bytes` length in Python. -/
def utf8Len (s : String) : Nat := (s.toList.map Char.utf8Size).sum

/-! ## Python dict model: association list, unique keys, insertion order -/

/-- Python `d[k] = v`: overwrite in place if the key exists, else append.
Insertion order and key uniqueness are preserved exactly like a Python dict. -/
def dictSet {K V : Type} [DecidableEq K] (l : List (K × V)) (k : K) (v : V) :
    List (K × V) :=
  if l.any (fun p => p.1 = k) then
    l.map (fun p => if p.1 = k then (k, v) else p)
  else
    l ++ [(k, v)]

/-- Python `d.get(k)`. -/
def dictLookup {K V : Type} [DecidableEq K] (l : List (K × V)) (k : K) : Option V :=
  match l with
  | [] => none
  | p :: r => if p.1 = k then some p.2 else dictLookup r k

/-! ## Data model: tree-sitter nodes -/

/-- The data a tree-sitter node exposes to the extractor.
`field_name` is the structural field name the parent grammar assigns to this
child (`node.field_name_for_named_child(i)` on the parent side), and `text`
is `node.text.decode("utf-8")`. -/
structure NodeData where
  type : String
  is_named : Bool
  start_byte : Nat
  end_byte : Nat
  start_row : Nat
  start_col : Nat
  end_row : Nat
  text : String
  field_name : Option String
deriving Repr, DecidableEq

mutual
/-- A concrete syntax tree node: its data plus the ordered list of children
(named and unnamed, as in tree-sitter). -/
inductive SNode where
  | mk : NodeData → SForest → SNode
deriving Repr, DecidableEq
/-- An ordered forest of syntax tree nodes (the children list). -/
inductive SForest where
  | nil : SForest
  | cons : SNode → SForest → SForest
deriving Repr, DecidableEq
end

def SNode.data : SNode → NodeData
  | .mk d _ => d

def SNode.childForest : SNode → SForest
  | .mk _ f => f

def SForest.toList : SForest → List SNode
  | .nil => []
  | .cons n f => n :: SForest.toList f

/-- The `node.children` (all children, in order). -/
def SNode.children (n : SNode) : List SNode := n.childForest.toList

/-- The `node.named_children`. -/
def SNode.named_children (n : SNode) : List SNode :=
  n.children.filter (fun c => c.data.is_named)

/-! ## Data model: extracted elements (analyzers/base.py) -/

/-- The per-field record stored in `ExtractedElement.fields`
(universal_extractor.py, `_extract_fields`). -/
structure FieldInfo where
  type : String
  text : String
  start_line : Nat
  end_line : Nat
deriving Repr, DecidableEq

/-- One parameter record built by `TypeScriptExtractor._enrich_function`. -/
structure ParamInfo where
  name : String
  optional : Bool
  type : Option String
  default : Option String
deriving Repr, DecidableEq

/-- A metadata value: the enrichment hooks store booleans, strings, string
lists and parameter lists. -/
inductive MetaVal where
  | b : Bool → MetaVal
  | s : String → MetaVal
  | strs : List String → MetaVal
  | params : List ParamInfo → MetaVal
deriving Repr, DecidableEq

/-- The scalar part of `ExtractedElement` (everything except `children`). -/
structure ElemCore where
  element_type : String
  name : String
  node_type : String
  start_line : Nat
  end_line : Nat
  start_byte : Nat
  end_byte : Nat
  text : String
  fields : List (String × FieldInfo)
  metadata : List (String × MetaVal)
deriving Repr, DecidableEq

mutual
/-- The `ExtractedElement`: its scalar core plus nested children. -/
inductive Element where
  | mk : ElemCore → ElemForest → Element
deriving Repr, DecidableEq
/-- An ordered list of extracted elements. -/
inductive ElemForest where
  | nil : ElemForest
  | cons : Element → ElemForest → ElemForest
deriving Repr, DecidableEq
end

def Element.core : Element → ElemCore
  | .mk c _ => c

def Element.childForest : Element → ElemForest
  | .mk _ f => f

def ElemForest.toList : ElemForest → List Element
  | .nil => []
  | .cons e f => e :: ElemForest.toList f

def ElemForest.ofList : List Element → ElemForest
  | [] => .nil
  | e :: r => .cons e (ElemForest.ofList r)

def Element.children (e : Element) : List Element := e.childForest.toList

/-! ## Pattern tables (universal_extractor.py) -/

/-- The `UniversalExtractor.UNIVERSAL_PATTERNS`, in source order. -/
def UNIVERSAL_PATTERNS : List (String × List String) :=
  [("function", ["function_declaration", "function_definition",
                 "method_definition", "method_declaration",
                 "function_item", "func_literal"]),
   ("class", ["class_declaration", "class_definition",
              "class_specifier", "struct_item"]),
   ("interface", ["interface_declaration", "trait_item",
                  "protocol_declaration"]),
   ("variable", ["variable_declaration", "variable_declarator",
                 "lexical_declaration", "const_item", "let_declaration"]),
   ("type", ["type_alias_declaration", "type_definition",
             "typedef_declaration", "type_item"]),
   ("enum", ["enum_declaration", "enum_item", "enum_specifier"]),
   ("import", ["import_statement", "import_declaration",
               "use_declaration", "import_spec"]),
   ("export", ["export_statement", "export_declaration"])]

/-- The `TypeScriptExtractor.TS_PATTERNS`, in source order. -/
def TS_PATTERNS : List (String × List String) :=
  [("type", ["type_alias_declaration", "interface_declaration"]),
   ("enum", ["enum_declaration"]),
   ("namespace", ["namespace_declaration", "module_declaration"])]

/-- The reverse-mapping loop shared by `UniversalExtractor.__init__` and
`TypeScriptExtractor.__init__`:
`for element_type, patterns in P: for pattern in patterns:
  self._node_type_to_element[pattern] = element_type`. -/
def addPatterns (m : List (String × String)) (ps : List (String × List String)) :
    List (String × String) :=
  ps.foldl (fun acc p => p.2.foldl (fun acc2 pat => dictSet acc2 pat p.1) acc) m

/-- The `_node_type_to_element` as built by `UniversalExtractor.__init__`. -/
def node_type_to_element : List (String × String) :=
  addPatterns [] UNIVERSAL_PATTERNS

/-- The `_node_type_to_element` after `TypeScriptExtractor.__init__` has added the
TypeScript-specific patterns on top of the universal ones. -/
def ts_node_type_to_element : List (String × String) :=
  addPatterns node_type_to_element TS_PATTERNS

/-! ## Extractor core (universal_extractor.py, UniversalExtractor) -/

/-- The `_get_field`: first named child carrying the given structural field name. -/
def get_field (n : SNode) (field_name : String) : Option SNode :=
  n.named_children.find? (fun c => c.data.field_name = some field_name)

/-- The `_find_child_by_type`: first named child with the given node type. -/
def find_child_by_type (n : SNode) (node_type : String) : Option SNode :=
  n.named_children.find? (fun c => c.data.type = node_type)

/-- The field-name loop of `_extract_name`: for each candidate field name, if
the field exists and is an identifier (or contains one), return its text,
otherwise try the next candidate. -/
def tryNameFields (n : SNode) : List String → Option String
  | [] => none
  | f :: rest =>
    match get_field n f with
    | none => tryNameFields n rest
    | some name_node =>
      if name_node.data.type = "identifier" then some name_node.data.text
      else
        match find_child_by_type name_node "identifier" with
        | some ident => some ident.data.text
        | none => tryNameFields n rest

/-- The `_extract_name`: try the fields `name`, `identifier`, `declarator`, then
fall back to scanning direct named children for an identifier. -/
def extract_name (n : SNode) : Option String :=
  match tryNameFields n ["name", "identifier", "declarator"] with
  | some s => some s
  | none =>
    (n.named_children.find? (fun c => c.data.type = "identifier")).map
      (fun c => c.data.text)

/-- The per-child record `_extract_fields` stores. -/
def toFieldInfo (c : SNode) : FieldInfo :=
  { type := c.data.type
    text := c.data.text
    start_line := c.data.start_row + 1
    end_line := c.data.end_row + 1 }

/-- The `_extract_fields`: every named child that carries a field name, stored
dict-style keyed by the field name. -/
def extract_fields (n : SNode) : List (String × FieldInfo) :=
  n.named_children.foldl
    (fun acc c =>
      match c.data.field_name with
      | none => acc
      | some f => dictSet acc f (toFieldInfo c))
    []

/-- An enrichment hook (`_enrich_element` and its overrides): it may mutate
the scalar element (metadata, element type) or raise, which we model as
`Except.error`. -/
abbrev Hook := ElemCore → SNode → Option NodeData → Except String ElemCore

/-- The base `UniversalExtractor._enrich_element` (a no-op `pass`). -/
def base_hook : Hook := fun e _ _ => .ok e

/-- The `metadata[k] = v` on an element. -/
def metaSet (e : ElemCore) (k : String) (v : MetaVal) : ElemCore :=
  { e with metadata := dictSet e.metadata k v }

/-- The `metadata.get(k)` on an element. -/
def metaGet (e : ElemCore) (k : String) : Option MetaVal :=
  dictLookup e.metadata k

/-- The `ExtractedElement(...)` constructor call in `_create_element`:
ranges and text from the node, extracted fields, empty metadata. -/
def buildElement (element_type : String) (n : SNode) : ElemCore :=
  { element_type := element_type
    name := pyOrElse (extract_name n) "<anonymous>"
    node_type := n.data.type
    start_line := n.data.start_row + 1
    end_line := n.data.end_row + 1
    start_byte := n.data.start_byte
    end_byte := n.data.end_byte
    text := n.data.text
    fields := extract_fields n
    metadata := [] }

/-- The `_create_element`: look the node type up in the pattern table, extract a
name (dropping the node if there is none and the kind is not `variable`),
build the scalar element, then run the enrichment hook. `Except.error`
models an exception raised inside the hook, which `_create_element` does not
catch. -/
def create_element (m : List (String × String)) (hook : Hook) (n : SNode)
    (parent : Option NodeData) : Except String (Option ElemCore) :=
  match dictLookup m n.data.type with
  | none => .ok none
  | some element_type =>
    let name := extract_name n
    if pyTruthy name = false ∧ element_type ≠ "variable" then .ok none
    else
      match hook (buildElement element_type n) n parent with
      | .error err => .error err
      | .ok enriched => .ok (some enriched)

mutual
/-- The `_extract_from_node`: if the named node matches the pattern table and an
element is created, extract elements from the children as `children` of the
element and yield just the element; otherwise recurse into the named
children at the same output level. -/
def extract_from_node (m : List (String × String)) (hook : Hook) :
    SNode → Option NodeData → Except String (List Element)
  | n@(.mk d cs), parent =>
    if d.is_named && (dictLookup m d.type).isSome then
      match create_element m hook n parent with
      | .error err => .error err
      | .ok none => extract_children m hook cs d
      | .ok (some core) =>
        match extract_children m hook cs d with
        | .error err => .error err
        | .ok childElems => .ok [Element.mk core (ElemForest.ofList childElems)]
    else extract_children m hook cs d
/-- The `for child in node.named_children: yield from ...` loop: unnamed
children are skipped, the results are concatenated, and any exception
propagates (aborting the loop). -/
def extract_children (m : List (String × String)) (hook : Hook) :
    SForest → NodeData → Except String (List Element)
  | .nil, _ => .ok []
  | .cons c rest, d =>
    if c.data.is_named then
      match extract_from_node m hook c (some d) with
      | .error err => .error err
      | .ok es =>
        match extract_children m hook rest d with
        | .error err => .error err
        | .ok es2 => .ok (es ++ es2)
    else extract_children m hook rest d
end

/-- The `extract_all`: extraction starts at the root node, whose parent is `None`. -/
def extract_all (m : List (String × String)) (hook : Hook) (root : SNode) :
    Except String (List Element) :=
  extract_from_node m hook root none

/-! ## TypeScript enrichment (TypeScriptExtractor) -/

/-- The `TypeScriptExtractor._enrich_function`. -/
def tsEnrichFunction (e : ElemCore) (n : SNode) (parent : Option NodeData) :
    ElemCore :=
  let e1 := metaSet e "async" (.b (pyStartswith (pyStrip e.text) "async "))
  let params : List ParamInfo :=
    match get_field n "parameters" with
    | none => []
    | some params_node =>
      (params_node.named_children.filter (fun param =>
          param.data.type = "required_parameter" ∨
          param.data.type = "optional_parameter")).map
        (fun param =>
          { name := pyOrElse (extract_name param) "<unnamed>"
            optional := param.data.type = "optional_parameter"
            type := (get_field param "type").map (fun t => t.data.text)
            default := (get_field param "value").map (fun v => v.data.text) })
  let e2 := metaSet e1 "parameters" (.params params)
  let e3 :=
    match get_field n "return_type" with
    | none => e2
    | some rt =>
      match rt.named_children with
      | [] => e2
      | c :: _ => metaSet e2 "return_type" (.s c.data.text)
  let e4 :=
    match get_field n "type_parameters" with
    | none => e3
    | some tp => metaSet e3 "generics" (.s tp.data.text)
  let e5 :=
    if n.data.type = "variable_declarator" then
      match get_field n "value" with
      | some v =>
        if v.data.type = "arrow_function" then
          metaSet e4 "arrow_function" (.b true)
        else e4
      | none => e4
    else e4
  match parent with
  | some p => if p.type = "export_statement" then metaSet e5 "exported" (.b true) else e5
  | none => e5

/-- The `TypeScriptExtractor._enrich_class`. -/
def tsEnrichClass (e : ElemCore) (n : SNode) (parent : Option NodeData) :
    ElemCore :=
  let e1 := if pyIn "abstract" (pyTake 50 e.text) then metaSet e "abstract" (.b true) else e
  let e2 :=
    match get_field n "heritage" with
    | none => e1
    | some heritage =>
      let ea :=
        match find_child_by_type heritage "extends_clause" with
        | none => e1
        | some ext =>
          metaSet e1 "extends" (.s (pyStrip (pyReplace ext.data.text "extends" "")))
      match find_child_by_type heritage "implements_clause" with
      | none => ea
      | some imp =>
        metaSet ea "implements" (.s (pyStrip (pyReplace imp.data.text "implements" "")))
  let decorators :=
    (n.children.filter (fun c => c.data.type = "decorator")).map
      (fun c => c.data.text)
  let e3 := if decorators ≠ [] then metaSet e2 "decorators" (.strs decorators) else e2
  match parent with
  | some p => if p.type = "export_statement" then metaSet e3 "exported" (.b true) else e3
  | none => e3

/-- The `TypeScriptExtractor._enrich_interface`. -/
def tsEnrichInterface (e : ElemCore) (n : SNode) (parent : Option NodeData) :
    ElemCore :=
  let e1 :=
    match get_field n "extends" with
    | none => e
    | some ext =>
      let extends_interfaces :=
        (ext.named_children.filter (fun c =>
            c.data.type = "type_identifier" ∨ c.data.type = "generic_type")).map
          (fun c => c.data.text)
      metaSet e "extends" (.strs extends_interfaces)
  let e2 :=
    match get_field n "type_parameters" with
    | none => e1
    | some tp => metaSet e1 "generics" (.s tp.data.text)
  match parent with
  | some p => if p.type = "export_statement" then metaSet e2 "exported" (.b true) else e2
  | none => e2

/-- The `TypeScriptExtractor._enrich_variable`: const/let/var classification from
the parent node, type annotation, and the promotion of function-valued
variables to kind `function` (re-running the function hook). -/
def tsEnrichVariable (e : ElemCore) (n : SNode) (parent : Option NodeData) :
    ElemCore :=
  let e1 :=
    match parent with
    | some p =>
      if p.type = "lexical_declaration" then
        if pyStartswith (pyStrip p.text) "const" then metaSet e "kind" (.s "const")
        else if pyStartswith (pyStrip p.text) "let" then metaSet e "kind" (.s "let")
        else e
      else if p.type = "variable_declaration" then metaSet e "kind" (.s "var")
      else e
    | none => e
  let e2 :=
    match get_field n "type" with
    | none => e1
    | some t => metaSet e1 "type" (.s t.data.text)
  match get_field n "value" with
  | none => e2
  | some v =>
    if v.data.type = "arrow_function" ∨ v.data.type = "function_expression" then
      tsEnrichFunction { e2 with element_type := "function" } n parent
    else e2

/-- The `TypeScriptExtractor._enrich_element`: dispatch on the element kind. -/
def tsEnrichElement (e : ElemCore) (n : SNode) (parent : Option NodeData) :
    ElemCore :=
  if e.element_type = "function" then tsEnrichFunction e n parent
  else if e.element_type = "class" then tsEnrichClass e n parent
  else if e.element_type = "interface" then tsEnrichInterface e n parent
  else if e.element_type = "variable" then tsEnrichVariable e n parent
  else e

/-- The TypeScript enrichment hook (never raises). -/
def ts_hook : Hook := fun e n p => .ok (tsEnrichElement e n p)

/-- The `TypeScriptExtractor(...).extract_all(tree)`. -/
def tsExtract (root : SNode) : Except String (List Element) :=
  extract_all ts_node_type_to_element ts_hook root

/-! ## Views over the extracted forest (for stating properties) -/

mutual
/-- An element together with all elements nested below it, in pre-order. -/
def flattenE : Element → List Element
  | .mk c f => Element.mk c f :: flattenF f
/-- All elements of a forest, in pre-order. -/
def flattenF : ElemForest → List Element
  | .nil => []
  | .cons e f => flattenE e ++ flattenF f
end

/-- All elements of a top-level extraction result, in pre-order. -/
def flattenL (es : List Element) : List Element := flattenF (ElemForest.ofList es)

mutual
/-- How many nodes of a subtree produce an element when the extractor visits
them (the node itself if it is named, matches the pattern table and
`_create_element` returns an element, plus the producing nodes below it). -/
def produced_from_node (m : List (String × String)) (hook : Hook) :
    SNode → Option NodeData → Nat
  | n@(.mk d cs), parent =>
    if d.is_named && (dictLookup m d.type).isSome then
      match create_element m hook n parent with
      | .error _ => 0
      | .ok none => produced_children m hook cs d
      | .ok (some _) => 1 + produced_children m hook cs d
    else produced_children m hook cs d
/-- Producing nodes among a children forest (unnamed children are never
visited). -/
def produced_children (m : List (String × String)) (hook : Hook) :
    SForest → NodeData → Nat
  | .nil, _ => 0
  | .cons c rest, d =>
    if c.data.is_named then
      produced_from_node m hook c (some d) + produced_children m hook rest d
    else produced_children m hook rest d
end

mutual
/-- Byte ranges inside one element are consistent and its children are
pairwise non-overlapping, in order, inside the element range. -/
def elemOrdered : Element → Bool
  | .mk c f =>
    (c.start_byte ≤ c.end_byte) && forestOrderedFrom c.start_byte c.end_byte f
/-- A forest is ordered within `[lo, hi]`: every element starts no earlier
than `lo`, ends no later than `hi`, is internally ordered, and precedes its
right siblings. -/
def forestOrderedFrom : Nat → Nat → ElemForest → Bool
  | _, _, .nil => true
  | lo, hi, .cons e f =>
    (lo ≤ e.core.start_byte) && (e.core.end_byte ≤ hi) && elemOrdered e
      && forestOrderedFrom e.core.end_byte hi f
end

/-- A result list is ordered inside `[lo, hi]`: byte ranges are pairwise
non-overlapping and left to right, at this level and (via `elemOrdered`) at
every nesting level below. -/
def elemsChain (lo hi : Nat) : List Element → Bool
  | [] => true
  | e :: r =>
    (lo ≤ e.core.start_byte) && (e.core.end_byte ≤ hi) && elemOrdered e
      && elemsChain e.core.end_byte hi r

/-- Field names among the named children, in order (what `_extract_fields`
keys its dict by). -/
def fieldNamesOf (n : SNode) : List String :=
  n.named_children.filterMap (fun c => c.data.field_name)

mutual
/-- Well-formedness of a syntax tree, as tree-sitter guarantees it: points
are ordered, the decoded text occupies exactly the byte range, structural
field names are not repeated among one node's named children, and children
are ordered and contained in the parent. -/
def wfNode : SNode → Bool
  | n@(.mk d cs) =>
    (d.start_row ≤ d.end_row) && (d.start_byte ≤ d.end_byte)
      && (utf8Len d.text = d.end_byte - d.start_byte)
      && decide (fieldNamesOf n).Nodup
      && wfForest d.start_byte d.end_byte cs
/-- Children are each well-formed, contained in `[lo, hi]` and pairwise
ordered left to right. -/
def wfForest : Nat → Nat → SForest → Bool
  | _, _, .nil => true
  | lo, hi, .cons c rest =>
    (lo ≤ c.data.start_byte) && (c.data.end_byte ≤ hi) && wfNode c
      && wfForest c.data.end_byte hi rest
end

/-! ## Relationship data (analyzers/base.py) -/

/-- The `CodeChunk` from analyzers/base.py. -/
structure CodeChunk where
  text : String
  filename : String
  start_line : Nat
  end_line : Nat
  node_type : String
  symbols : List String
  metadata : List (String × MetaVal) := []
deriving Repr, DecidableEq

/-- The `CallRelationship` from analyzers/base.py. -/
structure CallRelationship where
  filename : String
  caller : String
  callee : String
  arguments : List String
  line : Nat
  column : Nat
  context : String
deriving Repr, DecidableEq

/-! ## Analyzer registry (analyzers/registry.py, analyzers/base.py) -/

/-- The analyzer bundles the registry can hold: the three language analyzers
found under analyzers/languages/ (`typescript_enhanced.py` registers the same
"typescript" language name and extension list as `typescript.py`, so it does
not change the shape of the registry), plus `DefaultAnalyzer` from base.py
with its extensions and language name. -/
inductive Analyzer where
  | TypeScriptAnalyzer : Analyzer
  | PythonAnalyzer : Analyzer
  | JavaAnalyzer : Analyzer
  | DefaultAnalyzer : List String → String → Analyzer
deriving Repr, DecidableEq

def Analyzer.language_name : Analyzer → String
  | .TypeScriptAnalyzer => "typescript"
  | .PythonAnalyzer => "python"
  | .JavaAnalyzer => "java"
  | .DefaultAnalyzer _ language => language

def Analyzer.supported_extensions : Analyzer → List String
  | .TypeScriptAnalyzer => [".ts", ".tsx", ".js", ".jsx"]
  | .PythonAnalyzer => [".py", ".pyw"]
  | .JavaAnalyzer => [".java"]
  | .DefaultAnalyzer extensions _ => extensions

/-- The `DefaultAnalyzer.extract_call_relationships`: no call extraction. -/
def DefaultAnalyzer_calls (_chunk : CodeChunk) : List CallRelationship := []

/-- The `LanguageAnalyzer.extract_structure` default implementation (inherited by
`DefaultAnalyzer`): no structure extraction. -/
def DefaultAnalyzer_structure (_chunk : CodeChunk) : List Element := []

/-- The `AnalyzerRegistry`: the `_analyzers` dict keyed by language name and the
`_extension_map` dict keyed by extension. -/
structure AnalyzerRegistry where
  analyzers : List (String × Analyzer)
  extension_map : List (String × String)
deriving Repr, DecidableEq

/-- The `AnalyzerRegistry.register`. -/
def AnalyzerRegistry.register (r : AnalyzerRegistry) (a : Analyzer) :
    AnalyzerRegistry :=
  { analyzers := dictSet r.analyzers a.language_name a
    extension_map :=
      a.supported_extensions.foldl
        (fun m ext => dictSet m ext a.language_name) r.extension_map }

/-- Python `s.rfind(c)`: highest index of `c`, or -1. -/
def pyRfind (l : List Char) (c : Char) : Int :=
  match l.reverse.findIdx? (fun x => x = c) with
  | none => -1
  | some j => (l.length : Int) - 1 - j

/-- The `os.path.splitext` (posixpath): split off the extension at the last dot,
unless every character between the last path separator and that dot is a dot
(so a leading-dot file like `.bashrc` has no extension). -/
def splitext (p : String) : String × String :=
  let l := p.toList
  let sepIndex := pyRfind l '/'
  let dotIndex := pyRfind l '.'
  if sepIndex < dotIndex then
    let mid := (l.take dotIndex.toNat).drop (sepIndex + 1).toNat
    if mid.any (fun c => c ≠ '.') then
      (String.mk (l.take dotIndex.toNat), String.mk (l.drop dotIndex.toNat))
    else (p, "")
  else (p, "")

/-- The `AnalyzerRegistry.get_analyzer_for_file`: lowercase the extension, look
up the language, then the analyzer; `None` when the extension is unknown
(Python truthiness: an empty language string is also treated as no
language). -/
def AnalyzerRegistry.get_analyzer_for_file (r : AnalyzerRegistry)
    (filename : String) : Option Analyzer :=
  let ext := pyLower (splitext filename).2
  match dictLookup r.extension_map ext with
  | some language => if language = "" then none else dictLookup r.analyzers language
  | none => none

/-- The analyzer list of `register_defaults` (registry.py), in source order. -/
def default_analyzers : List Analyzer :=
  [.DefaultAnalyzer [".html", ".htm"] "html",
   .DefaultAnalyzer [".css", ".scss", ".sass"] "css",
   .DefaultAnalyzer [".json"] "json",
   .DefaultAnalyzer [".yaml", ".yml"] "yaml",
   .DefaultAnalyzer [".toml"] "toml",
   .DefaultAnalyzer [".xml"] "xml",
   .DefaultAnalyzer [".sh", ".bash"] "bash",
   .DefaultAnalyzer [".c"] "c",
   .DefaultAnalyzer [".cpp", ".cc", ".cxx"] "cpp",
   .DefaultAnalyzer [".rs"] "rust",
   .DefaultAnalyzer [".go"] "go",
   .DefaultAnalyzer [".rb"] "ruby",
   .DefaultAnalyzer [".php"] "php",
   .DefaultAnalyzer [".swift"] "swift",
   .DefaultAnalyzer [".kt"] "kotlin"]

def emptyRegistry : AnalyzerRegistry := { analyzers := [], extension_map := [] }

/-- The global registry right after `register_defaults()`. -/
def registryWithDefaults : AnalyzerRegistry :=
  default_analyzers.foldl AnalyzerRegistry.register emptyRegistry

/-- The global registry after `register_defaults()` and auto-discovery of the
language analyzers under analyzers/languages/. -/
def fullRegistry : AnalyzerRegistry :=
  [Analyzer.JavaAnalyzer, Analyzer.PythonAnalyzer,
   Analyzer.TypeScriptAnalyzer].foldl
    AnalyzerRegistry.register registryWithDefaults

/-! ## TypeScript call extraction (analyzers/languages/typescript.py)

The tree-sitter query engine is external; the two query strings in
`TypeScriptAnalyzer.__init__` are embedded as matching functions that return
`(node, capture_name)` pairs in document order, which is the shape
`parser_utils.query_captures` hands back to the analyzer. -/

/-- Captures of `_call_query` at one node: a `call_expression` whose
`function` field is an identifier — or a member expression whose `property`
field is a property identifier — captured as `callee`, its `arguments` field
captured as `args`, and the call itself captured as `call`. -/
def callCapturesAt (n : SNode) : List (SNode × String) :=
  if n.data.type = "call_expression" then
    let calleeNode : Option SNode :=
      match get_field n "function" with
      | some f =>
        if f.data.type = "identifier" then some f
        else if f.data.type = "member_expression" then
          match get_field f "property" with
          | some prop =>
            if prop.data.type = "property_identifier" then some prop else none
          | none => none
        else none
      | none => none
    match calleeNode, get_field n "arguments" with
    | some c, some a =>
      if a.data.type = "arguments" then [(c, "callee"), (a, "args"), (n, "call")]
      else []
    | _, _ => []
  else []

/-- Captures of `_function_query` at one node: named function declarations,
method definitions, and variable declarators whose value is an inline
function. -/
def funcCapturesAt (n : SNode) : List (SNode × String) :=
  if n.data.type = "function_declaration" then
    match get_field n "name" with
    | some nm =>
      if nm.data.type = "identifier" then [(nm, "function_name"), (n, "function")]
      else []
    | none => []
  else if n.data.type = "method_definition" then
    match get_field n "name" with
    | some nm =>
      if nm.data.type = "property_identifier" then [(nm, "method_name"), (n, "method")]
      else []
    | none => []
  else if n.data.type = "variable_declarator" then
    match get_field n "name", get_field n "value" with
    | some nm, some v =>
      if nm.data.type = "identifier" then
        if v.data.type = "arrow_function" then
          [(nm, "var_name"), (v, "arrow"), (n, "var_func")]
        else if v.data.type = "function_expression" then
          [(nm, "var_name"), (v, "func_expr"), (n, "var_func")]
        else []
      else []
    | _, _ => []
  else []

mutual
/-- All captures of a query over a subtree, in pre-order (document order). -/
def capturesN (capturesAt : SNode → List (SNode × String)) :
    SNode → List (SNode × String)
  | n@(.mk _ cs) => capturesAt n ++ capturesF capturesAt cs
def capturesF (capturesAt : SNode → List (SNode × String)) :
    SForest → List (SNode × String)
  | .nil => []
  | .cons c rest => capturesN capturesAt c ++ capturesF capturesAt rest
end

mutual
/-- The ancestor chain of the first occurrence of `target` below `n`,
innermost parent first (the `node.parent` chain tree-sitter exposes). -/
def ancestorsN (target : SNode) : SNode → Option (List NodeData)
  | n@(.mk d cs) =>
    if n = target then some []
    else
      match ancestorsF target cs with
      | some l => some (l ++ [d])
      | none => none
def ancestorsF (target : SNode) : SForest → Option (List NodeData)
  | .nil => none
  | .cons c rest =>
    match ancestorsN target c with
    | some l => some l
    | none => ancestorsF target rest
end

/-- The `parent = node.parent; while parent and parent.type not in types:
parent = parent.parent` walk from typescript.py. -/
def walkUpTo (root target : SNode) (types : List String) : Option NodeData :=
  match ancestorsN target root with
  | none => none
  | some chain => chain.find? (fun d => types.contains d.type)

/-- The `TypeScriptAnalyzer.extract_call_relationships`, given the tree the
external parser produced for `chunk.text`. For each `call` capture the last
in-range `callee` and `args` captures win (the Python loop overwrites);
the caller is the first entry of `func_ranges` whose byte range contains the
call start; arguments are the parenthesised text split on commas and
stripped. -/
def ts_extract_call_relationships (chunk : CodeChunk) (tree : SNode) :
    List CallRelationship :=
  let captures := capturesN callCapturesAt tree
  let func_captures := capturesN funcCapturesAt tree
  let func_ranges : List ((Nat × Nat) × String) :=
    func_captures.foldl
      (fun acc nc =>
        if nc.2 = "function_name" ∨ nc.2 = "method_name" ∨ nc.2 = "var_name" then
          let func_name := nc.1.data.text
          match walkUpTo tree nc.1
              ["function_declaration", "method_definition", "variable_declarator"] with
          | some p => dictSet acc (p.start_byte, p.end_byte) func_name
          | none => acc
        else acc)
      []
  captures.foldl
    (fun acc nc =>
      if nc.2 = "call" then
        let node := nc.1
        let found :=
          captures.foldl
            (fun (st : Option String × String) cc =>
              if cc.2 = "callee" ∧ cc.1.data.start_byte ≥ node.data.start_byte ∧
                  cc.1.data.end_byte ≤ node.data.end_byte then
                (some cc.1.data.text, st.2)
              else if cc.2 = "args" ∧ cc.1.data.start_byte ≥ node.data.start_byte ∧
                  cc.1.data.end_byte ≤ node.data.end_byte then
                (st.1, cc.1.data.text)
              else st)
            (none, "")
        match found.1 with
        | none => acc
        | some callee =>
          let caller :=
            match func_ranges.find?
                (fun pr => pr.1.1 ≤ node.data.start_byte ∧
                           node.data.start_byte ≤ pr.1.2) with
            | some pr => pr.2
            | none => "anonymous"
          let args_text := found.2
          let args : List String :=
            if args_text ≠ "" ∧ args_text.toList.length > 2 then
              let args_content := pyStrip (pySlice1m1 args_text)
              if args_content ≠ "" then (pySplit ',' args_content).map pyStrip
              else []
            else []
          acc ++ [{ filename := chunk.filename
                    caller := caller
                    callee := callee
                    arguments := args
                    line := node.data.start_row + chunk.start_line
                    column := node.data.start_col + 1
                    context :=
                      pySlice (node.data.start_byte - 50)
                        (min chunk.text.toList.length (node.data.end_byte + 50))
                        chunk.text }]
      else acc)
    []

/-! ## Concrete syntax trees (tree-sitter typescript parses, written out) -/

def SForest.ofList : List SNode → SForest
  | [] => .nil
  | n :: r => .cons n (SForest.ofList r)

/-- Build a node from its tree-sitter data and children list. -/
def mkNode (type : String) (named : Bool) (sb eb sr sc er : Nat)
    (text : String) (fname : Option String) (cs : List SNode) : SNode :=
  .mk { type := type, is_named := named, start_byte := sb, end_byte := eb,
        start_row := sr, start_col := sc, end_row := er, text := text,
        field_name := fname }
    (SForest.ofList cs)

/-! The parse of `function a() { b(1, 2); }` (all on row 0). -/

def tree9 : SNode :=
  mkNode "program" true 0 25 0 0 0 "function a() \x7b b(1, 2); \x7d" none
    [mkNode "function_declaration" true 0 25 0 0 0
       "function a() \x7b b(1, 2); \x7d" none
       [mkNode "function" false 0 8 0 0 0 "function" none [],
        mkNode "identifier" true 9 10 0 9 0 "a" (some "name") [],
        mkNode "formal_parameters" true 10 12 0 10 0 "()" (some "parameters")
          [mkNode "(" false 10 11 0 10 0 "(" none [],
           mkNode ")" false 11 12 0 11 0 ")" none []],
        mkNode "statement_block" true 13 25 0 13 0 "\x7b b(1, 2); \x7d" (some "body")
          [mkNode "\x7b" false 13 14 0 13 0 "\x7b" none [],
           mkNode "expression_statement" true 15 23 0 15 0 "b(1, 2);" none
             [mkNode "call_expression" true 15 22 0 15 0 "b(1, 2)" none
                [mkNode "identifier" true 15 16 0 15 0 "b" (some "function") [],
                 mkNode "arguments" true 16 22 0 16 0 "(1, 2)" (some "arguments")
                   [mkNode "(" false 16 17 0 16 0 "(" none [],
                    mkNode "number" true 17 18 0 17 0 "1" none [],
                    mkNode "," false 18 19 0 18 0 "," none [],
                    mkNode "number" true 20 21 0 20 0 "2" none [],
                    mkNode ")" false 21 22 0 21 0 ")" none []]],
              mkNode ";" false 22 23 0 22 0 ";" none []],
           mkNode "\x7d" false 24 25 0 24 0 "\x7d" none []]]]

/-- The chunk handed to the analyzer for that source. -/
def chunk9 : CodeChunk :=
  { text := "function a() \x7b b(1, 2); \x7d"
    filename := "test.ts"
    start_line := 1
    end_line := 1
    node_type := "program"
    symbols := [] }

/-! The parse of `export const f = () => 1;` (all on row 0). -/

def c1arrow : SNode :=
  mkNode "arrow_function" true 17 24 0 17 0 "() => 1" (some "value")
    [mkNode "formal_parameters" true 17 19 0 17 0 "()" (some "parameters")
       [mkNode "(" false 17 18 0 17 0 "(" none [],
        mkNode ")" false 18 19 0 18 0 ")" none []],
     mkNode "=>" false 20 22 0 20 0 "=>" none [],
     mkNode "number" true 23 24 0 23 0 "1" (some "body") []]

def c1declarator : SNode :=
  mkNode "variable_declarator" true 13 24 0 13 0 "f = () => 1" none
    [mkNode "identifier" true 13 14 0 13 0 "f" (some "name") [],
     mkNode "=" false 15 16 0 15 0 "=" none [],
     c1arrow]

def c1lexical : SNode :=
  mkNode "lexical_declaration" true 7 25 0 7 0 "const f = () => 1;"
    (some "declaration")
    [mkNode "const" false 7 12 0 7 0 "const" (some "kind") [],
     c1declarator,
     mkNode ";" false 24 25 0 24 0 ";" none []]

def c1export : SNode :=
  mkNode "export_statement" true 0 25 0 0 0 "export const f = () => 1;" none
    [mkNode "export" false 0 6 0 0 0 "export" none [],
     c1lexical]

def c1tree : SNode :=
  mkNode "program" true 0 25 0 0 0 "export const f = () => 1;" none [c1export]

/-! The parse of `function bad() \x7b\x7d function good() \x7b\x7d`. -/

def c2fdBad : SNode :=
  mkNode "function_declaration" true 0 17 0 0 0 "function bad() \x7b\x7d" none
    [mkNode "function" false 0 8 0 0 0 "function" none [],
     mkNode "identifier" true 9 12 0 9 0 "bad" (some "name") [],
     mkNode "formal_parameters" true 12 14 0 12 0 "()" (some "parameters")
       [mkNode "(" false 12 13 0 12 0 "(" none [],
        mkNode ")" false 13 14 0 13 0 ")" none []],
     mkNode "statement_block" true 15 17 0 15 0 "\x7b\x7d" (some "body")
       [mkNode "\x7b" false 15 16 0 15 0 "\x7b" none [],
        mkNode "\x7d" false 16 17 0 16 0 "\x7d" none []]]

def c2fdGood : SNode :=
  mkNode "function_declaration" true 18 36 0 18 0 "function good() \x7b\x7d" none
    [mkNode "function" false 18 26 0 18 0 "function" none [],
     mkNode "identifier" true 27 31 0 27 0 "good" (some "name") [],
     mkNode "formal_parameters" true 31 33 0 31 0 "()" (some "parameters")
       [mkNode "(" false 31 32 0 31 0 "(" none [],
        mkNode ")" false 32 33 0 32 0 ")" none []],
     mkNode "statement_block" true 34 36 0 34 0 "\x7b\x7d" (some "body")
       [mkNode "\x7b" false 34 35 0 34 0 "\x7b" none [],
        mkNode "\x7d" false 35 36 0 35 0 "\x7d" none []]]

def c2tree : SNode :=
  mkNode "program" true 0 36 0 0 0
    "function bad() \x7b\x7d function good() \x7b\x7d" none
    [c2fdBad, c2fdGood]

/-- A hook standing for a language-specific `_enrich_element` override that
raises for one specific element and otherwise behaves like the TypeScript
enrichment. -/
def raising_hook : Hook := fun e n p =>
  if e.name = "bad" then .error "boom" else .ok (tsEnrichElement e n p)

/-! The parse of `const é = 1;` — the identifier is a 2-byte UTF-8 character
(byte length 13, character length 12; all on row 0). -/

def c7declarator : SNode :=
  mkNode "variable_declarator" true 6 12 0 6 0 "é = 1" none
    [mkNode "identifier" true 6 8 0 6 0 "é" (some "name") [],
     mkNode "=" false 9 10 0 9 0 "=" none [],
     mkNode "number" true 11 12 0 11 0 "1" (some "value") []]

def c7lexical : SNode :=
  mkNode "lexical_declaration" true 0 13 0 0 0 "const é = 1;" none
    [mkNode "const" false 0 5 0 0 0 "const" (some "kind") [],
     c7declarator,
     mkNode ";" false 12 13 0 12 0 ";" none []]

def c7tree : SNode :=
  mkNode "program" true 0 13 0 0 0 "const é = 1;" none [c7lexical]

/-! ## Characterisation helpers used in theorem statements -/

/-- The condition of the export check in the TypeScript enrichment:
`parent and parent.type == "export_statement"` (one ancestor level only). -/
def isExportParent : Option NodeData → Bool
  | some p => p.type = "export_statement"
  | none => false

/-- The condition of the promotion check in `_enrich_variable`: the `value`
structural field exists and is an inline function node. -/
def valueIsFunction (n : SNode) : Bool :=
  match get_field n "value" with
  | some v => v.data.type = "arrow_function" ∨ v.data.type = "function_expression"
  | none => false

/-- Everything of the scalar element except `element_type` and `metadata`,
which are the only parts an enrichment hook is allowed to touch. -/
def sameShape (a b : ElemCore) : Prop :=
  b.name = a.name ∧ b.node_type = a.node_type ∧ b.start_line = a.start_line ∧
  b.end_line = a.end_line ∧ b.start_byte = a.start_byte ∧
  b.end_byte = a.end_byte ∧ b.text = a.text ∧ b.fields = a.fields

/-! ## Extraction outputs of the concrete trees, written out -/

/-- The element `TypeScriptExtractor` yields for `f = () => 1` inside
`export const f = () => 1;`: matched as a variable, promoted to a function,
const-classified, and — the point of claim C1 — not marked exported. -/
def c1innerElem : Element :=
  Element.mk
    { element_type := "function", name := "f",
      node_type := "variable_declarator",
      start_line := 1, end_line := 1, start_byte := 13, end_byte := 24,
      text := "f = () => 1",
      fields := [("name", { type := "identifier", text := "f",
                            start_line := 1, end_line := 1 }),
                 ("value", { type := "arrow_function", text := "() => 1",
                             start_line := 1, end_line := 1 })],
      metadata := [("kind", .s "const"), ("async", .b false),
                   ("parameters", .params []), ("arrow_function", .b true)] }
    .nil

/-- The full output of `TypeScriptExtractor.extract_all` on the parse of
`export const f = () => 1;`. -/
def c1out : List Element :=
  [Element.mk
     { element_type := "variable", name := "<anonymous>",
       node_type := "lexical_declaration",
       start_line := 1, end_line := 1, start_byte := 7, end_byte := 25,
       text := "const f = () => 1;", fields := [], metadata := [] }
     (.cons c1innerElem .nil)]

/-- The element `TypeScriptExtractor` yields for `function bad() \x7b\x7d`
extracted on its own. -/
def badFnElem : Element :=
  Element.mk
    { element_type := "function", name := "bad",
      node_type := "function_declaration",
      start_line := 1, end_line := 1, start_byte := 0, end_byte := 17,
      text := "function bad() \x7b\x7d",
      fields := [("name", { type := "identifier", text := "bad",
                            start_line := 1, end_line := 1 }),
                 ("parameters", { type := "formal_parameters", text := "()",
                                  start_line := 1, end_line := 1 }),
                 ("body", { type := "statement_block", text := "\x7b\x7d",
                            start_line := 1, end_line := 1 })],
      metadata := [("async", .b false), ("parameters", .params [])] }
    .nil

/-! Theorems: dictionary lemmas, enrichment characterisations, extraction
invariants, and the claim theorems C1 to C10 with their witnesses. -/

theorem dictLookup_append {K V : Type} [DecidableEq K]
    (l1 l2 : List (K × V)) (k : K) :
    dictLookup (l1 ++ l2) k =
      (dictLookup l1 k).rec (dictLookup l2 k) (fun v => some v) := by
  induction l1 with
  | nil => simp [dictLookup]
  | cons p r ih =>
    by_cases hp : p.1 = k
    · simp [dictLookup, hp]
    · simp [dictLookup, hp, ih]

theorem dictLookup_map_replace_self {K V : Type} [DecidableEq K]
    (r : List (K × V)) (k : K) (v : V) (hr : r.any (fun p => p.1 = k) = true) :
    dictLookup (r.map (fun p => if p.1 = k then (k, v) else p)) k = some v := by
  induction r with
  | nil => simp at hr
  | cons p t ih =>
    simp only [List.any_cons, Bool.or_eq_true, decide_eq_true_eq] at hr
    by_cases hp : p.1 = k
    · simp [dictLookup, hp]
    · have ht : t.any (fun p => p.1 = k) = true := by
        rcases hr with hr | hr
        · exact absurd hr hp
        · simpa using hr
      simp [dictLookup, hp, ih ht]

theorem dictLookup_map_replace_ne {K V : Type} [DecidableEq K]
    (r : List (K × V)) (k k2 : K) (v : V) (h : k2 ≠ k) :
    dictLookup (r.map (fun p => if p.1 = k then (k, v) else p)) k2 =
      dictLookup r k2 := by
  induction r with
  | nil => rfl
  | cons p t ih =>
    by_cases hp : p.1 = k
    · have hk : ¬ (k = k2) := fun e => h e.symm
      have hp2 : ¬ (p.1 = k2) := by rw [hp]; exact hk
      simp [dictLookup, hp, hk, hp2, ih]
    · by_cases hk2 : p.1 = k2
      · simp [dictLookup, hp, hk2, h]
      · simp [dictLookup, hp, hk2, ih]

theorem dictLookup_set_self {K V : Type} [DecidableEq K]
    (l : List (K × V)) (k : K) (v : V) : dictLookup (dictSet l k v) k = some v := by
  unfold dictSet
  by_cases h : l.any (fun p => p.1 = k)
  · rw [if_pos h]
    exact dictLookup_map_replace_self l k v h
  · rw [if_neg h, dictLookup_append]
    have hl : dictLookup l k = none := by
      induction l with
      | nil => rfl
      | cons p r ih =>
        simp only [List.any_cons, Bool.or_eq_true, decide_eq_true_eq, not_or] at h
        simp [dictLookup, h.1, ih (by simpa using h.2)]
    rw [hl]
    simp [dictLookup]

theorem dictLookup_set_ne {K V : Type} [DecidableEq K]
    (l : List (K × V)) (k k2 : K) (v : V) (h : k2 ≠ k) :
    dictLookup (dictSet l k v) k2 = dictLookup l k2 := by
  unfold dictSet
  by_cases ha : l.any (fun p => p.1 = k)
  · rw [if_pos ha]
    exact dictLookup_map_replace_ne l k k2 v h
  · rw [if_neg ha, dictLookup_append]
    have : dictLookup [(k, v)] k2 = none := by
      have : ¬ (k = k2) := fun e => h (Eq.symm e)
      simp [dictLookup, this]
    rw [this]
    cases dictLookup l k2 <;> rfl

@[simp] theorem metaSet_element_type (e : ElemCore) (k : String) (v : MetaVal) :
    (metaSet e k v).element_type = e.element_type := rfl

@[simp] theorem metaSet_fields (e : ElemCore) (k : String) (v : MetaVal) :
    (metaSet e k v).fields = e.fields := rfl

@[simp] theorem metaSet_node_type (e : ElemCore) (k : String) (v : MetaVal) :
    (metaSet e k v).node_type = e.node_type := rfl

@[simp] theorem metaSet_metadata (e : ElemCore) (k : String) (v : MetaVal) :
    (metaSet e k v).metadata = dictSet e.metadata k v := rfl

@[simp] theorem dictLookup_dictSet {K V : Type} [DecidableEq K]
    (l : List (K × V)) (k : K) (v : V) (k2 : K) :
    dictLookup (dictSet l k v) k2 = if k2 = k then some v else dictLookup l k2 := by
  by_cases h : k2 = k
  · subst h
    simp [dictLookup_set_self]
  · simp [h, dictLookup_set_ne _ _ _ _ h]

set_option maxHeartbeats 1000000 in
theorem tsEnrichFunction_exported (e : ElemCore) (n : SNode)
    (p : Option NodeData) :
    dictLookup (tsEnrichFunction e n p).metadata "exported" =
      if isExportParent p then some (.b true)
      else dictLookup e.metadata "exported" := by
  unfold tsEnrichFunction isExportParent
  cases p with
  | none =>
    repeat' split
    all_goals simp_all [dictLookup_dictSet]
  | some pd =>
    by_cases hp : pd.type = "export_statement"
    · simp only [hp]
      repeat' split
      all_goals simp_all [dictLookup_dictSet]
    · simp only [hp]
      repeat' split
      all_goals simp_all [dictLookup_dictSet]

theorem tsEnrichClass_exported (e : ElemCore) (n : SNode)
    (p : Option NodeData) :
    dictLookup (tsEnrichClass e n p).metadata "exported" =
      if isExportParent p then some (.b true)
      else dictLookup e.metadata "exported" := by
  unfold tsEnrichClass isExportParent
  cases p with
  | none =>
    repeat' split
    all_goals simp_all [dictLookup_dictSet]
    all_goals (try (split <;> simp_all [dictLookup_dictSet]))
  | some pd =>
    by_cases hp : pd.type = "export_statement"
    · simp only [hp]
      repeat' split
      all_goals simp_all [dictLookup_dictSet]
      all_goals (try (split <;> simp_all [dictLookup_dictSet]))
    · simp only [hp]
      repeat' split
      all_goals simp_all [dictLookup_dictSet]
      all_goals (try (split <;> simp_all [dictLookup_dictSet]))

theorem tsEnrichInterface_exported (e : ElemCore) (n : SNode)
    (p : Option NodeData) :
    dictLookup (tsEnrichInterface e n p).metadata "exported" =
      if isExportParent p then some (.b true)
      else dictLookup e.metadata "exported" := by
  unfold tsEnrichInterface isExportParent
  cases p with
  | none =>
    repeat' split
    all_goals simp_all [dictLookup_dictSet]
  | some pd =>
    by_cases hp : pd.type = "export_statement"
    · simp only [hp]
      repeat' split
      all_goals simp_all [dictLookup_dictSet]
    · simp only [hp]
      repeat' split
      all_goals simp_all [dictLookup_dictSet]

theorem tsEnrichVariable_exported (e : ElemCore) (n : SNode)
    (p : Option NodeData) :
    dictLookup (tsEnrichVariable e n p).metadata "exported" =
      if valueIsFunction n && isExportParent p then some (.b true)
      else dictLookup e.metadata "exported" := by
  unfold tsEnrichVariable valueIsFunction
  repeat' split
  all_goals simp_all [tsEnrichFunction_exported, dictLookup_set_self,
    dictLookup_set_ne]

theorem tsEnrichFunction_element_type (e : ElemCore) (n : SNode)
    (p : Option NodeData) :
    (tsEnrichFunction e n p).element_type = e.element_type := by
  unfold tsEnrichFunction
  repeat' split
  all_goals simp

theorem tsEnrichVariable_element_type (e : ElemCore) (n : SNode)
    (p : Option NodeData) :
    (tsEnrichVariable e n p).element_type =
      if valueIsFunction n then "function" else e.element_type := by
  unfold tsEnrichVariable valueIsFunction
  repeat' split
  all_goals simp_all [tsEnrichFunction_element_type]

theorem tsEnrichFunction_parameters (e : ElemCore) (n : SNode)
    (p : Option NodeData) :
    dictLookup (tsEnrichFunction e n p).metadata "parameters" ≠ none := by
  unfold tsEnrichFunction
  repeat' split
  all_goals simp [dictLookup_dictSet]

theorem tsEnrichVariable_parameters (e : ElemCore) (n : SNode)
    (p : Option NodeData) (h : valueIsFunction n = true) :
    dictLookup (tsEnrichVariable e n p).metadata "parameters" ≠ none := by
  unfold tsEnrichVariable
  unfold valueIsFunction at h
  repeat' split
  all_goals simp_all [tsEnrichFunction_parameters]

@[simp] theorem metaSet_name (e : ElemCore) (k : String) (v : MetaVal) :
    (metaSet e k v).name = e.name := rfl

@[simp] theorem metaSet_start_line (e : ElemCore) (k : String) (v : MetaVal) :
    (metaSet e k v).start_line = e.start_line := rfl

@[simp] theorem metaSet_end_line (e : ElemCore) (k : String) (v : MetaVal) :
    (metaSet e k v).end_line = e.end_line := rfl

@[simp] theorem metaSet_start_byte (e : ElemCore) (k : String) (v : MetaVal) :
    (metaSet e k v).start_byte = e.start_byte := rfl

@[simp] theorem metaSet_end_byte (e : ElemCore) (k : String) (v : MetaVal) :
    (metaSet e k v).end_byte = e.end_byte := rfl

@[simp] theorem metaSet_text (e : ElemCore) (k : String) (v : MetaVal) :
    (metaSet e k v).text = e.text := rfl

set_option maxHeartbeats 1000000 in
theorem tsEnrichFunction_shape (e : ElemCore) (n : SNode)
    (p : Option NodeData) : sameShape e (tsEnrichFunction e n p) := by
  unfold sameShape tsEnrichFunction
  refine ⟨?_, ?_, ?_, ?_, ?_, ?_, ?_, ?_⟩
  all_goals repeat' split
  all_goals simp

set_option maxHeartbeats 1000000 in
theorem tsEnrichClass_shape (e : ElemCore) (n : SNode)
    (p : Option NodeData) : sameShape e (tsEnrichClass e n p) := by
  unfold sameShape tsEnrichClass
  refine ⟨?_, ?_, ?_, ?_, ?_, ?_, ?_, ?_⟩
  all_goals repeat' split
  all_goals simp
  all_goals (try (split <;> simp))

set_option maxHeartbeats 1000000 in
theorem tsEnrichInterface_shape (e : ElemCore) (n : SNode)
    (p : Option NodeData) : sameShape e (tsEnrichInterface e n p) := by
  unfold sameShape tsEnrichInterface
  refine ⟨?_, ?_, ?_, ?_, ?_, ?_, ?_, ?_⟩
  all_goals repeat' split
  all_goals simp

set_option maxHeartbeats 1000000 in
theorem tsEnrichVariable_shape (e : ElemCore) (n : SNode)
    (p : Option NodeData) : sameShape e (tsEnrichVariable e n p) := by
  have hfn : ∀ (x : ElemCore), sameShape x (tsEnrichFunction x n p) :=
    fun x => tsEnrichFunction_shape x n p
  unfold sameShape at hfn ⊢
  unfold tsEnrichVariable
  refine ⟨?_, ?_, ?_, ?_, ?_, ?_, ?_, ?_⟩
  all_goals repeat' split
  all_goals simp_all
  all_goals (try (split <;> simp_all))

theorem tsEnrichElement_shape (e : ElemCore) (n : SNode)
    (p : Option NodeData) : sameShape e (tsEnrichElement e n p) := by
  unfold tsEnrichElement
  by_cases hf : e.element_type = "function"
  · rw [if_pos hf]; exact tsEnrichFunction_shape e n p
  · rw [if_neg hf]
    by_cases hc : e.element_type = "class"
    · rw [if_pos hc]; exact tsEnrichClass_shape e n p
    · rw [if_neg hc]
      by_cases hi : e.element_type = "interface"
      · rw [if_pos hi]; exact tsEnrichInterface_shape e n p
      · rw [if_neg hi]
        by_cases hv : e.element_type = "variable"
        · rw [if_pos hv]; exact tsEnrichVariable_shape e n p
        · rw [if_neg hv]
          exact ⟨rfl, rfl, rfl, rfl, rfl, rfl, rfl, rfl⟩

theorem tsEnrichElement_element_type (e : ElemCore) (n : SNode)
    (p : Option NodeData) :
    (tsEnrichElement e n p).element_type =
      if e.element_type = "variable" ∧ valueIsFunction n = true then "function"
      else e.element_type := by
  unfold tsEnrichElement
  by_cases hf : e.element_type = "function"
  · simp [hf, tsEnrichFunction_element_type]
  · rw [if_neg hf]
    by_cases hc : e.element_type = "class"
    · have hce : (tsEnrichClass e n p).element_type = e.element_type := by
        unfold tsEnrichClass
        repeat' split
        all_goals simp
        all_goals (try (split <;> simp))
      simp [hc, hce]
    · rw [if_neg hc]
      by_cases hi : e.element_type = "interface"
      · have hie : (tsEnrichInterface e n p).element_type = e.element_type := by
          unfold tsEnrichInterface
          repeat' split
          all_goals simp
        simp [hi, hie]
      · rw [if_neg hi]
        by_cases hv : e.element_type = "variable"
        · rw [if_pos hv]
          rw [tsEnrichVariable_element_type]
          by_cases hvf : valueIsFunction n = true
          · simp [hv, hvf]
          · simp [hv, hvf, hvf]
        · rw [if_neg hv]
          simp [hv]

theorem create_element_some_inv (m : List (String × String)) (hook : Hook)
    (n : SNode) (p : Option NodeData) (core : ElemCore)
    (h : create_element m hook n p = .ok (some core)) :
    ∃ et, dictLookup m n.data.type = some et ∧
      ¬ (pyTruthy (extract_name n) = false ∧ et ≠ "variable") ∧
      hook (buildElement et n) n p = .ok core := by
  unfold create_element at h
  split at h
  · simp at h
  · rename_i et hm
    dsimp only at h
    split at h
    · simp at h
    · rename_i hc
      split at h
      · simp at h
      · rename_i enriched hh
        simp only [Except.ok.injEq, Option.some.injEq] at h
        rw [h] at hh
        exact ⟨et, hm, hc, hh⟩

theorem fields_foldl_lookup (cs : List SNode) (acc : List (String × FieldInfo))
    (f : String)
    (hd : ∀ c ∈ cs, ∀ g, c.data.field_name = some g → dictLookup acc g = none)
    (hnd : (cs.filterMap (fun c => c.data.field_name)).Nodup) :
    dictLookup
      (cs.foldl
        (fun acc c =>
          match c.data.field_name with
          | none => acc
          | some f2 => dictSet acc f2 (toFieldInfo c)) acc) f =
      match dictLookup acc f with
      | some v => some v
      | none => (cs.find? (fun c => c.data.field_name = some f)).map toFieldInfo := by
  induction cs generalizing acc with
  | nil =>
    simp only [List.foldl_nil, List.find?_nil, Option.map_none]
    cases dictLookup acc f <;> rfl
  | cons c t ih =>
    cases hg : c.data.field_name with
    | none =>
      rw [List.foldl_cons]
      simp only [hg]
      rw [ih acc (fun c' hc' g hg' => hd c' (List.mem_cons_of_mem _ hc') g hg')
        (by simpa [List.filterMap_cons, hg] using hnd)]
      rw [List.find?_cons_of_neg _ (by simp [hg])]
    | some g =>
      rw [List.foldl_cons]
      simp only [hg]
      have hnd2 : (g :: t.filterMap (fun c => c.data.field_name)).Nodup := by
        simpa [List.filterMap_cons, hg] using hnd
      have hnd' : (t.filterMap (fun c => c.data.field_name)).Nodup :=
        hnd2.of_cons
      have hgnot : g ∉ t.filterMap (fun c => c.data.field_name) :=
        (List.nodup_cons.mp hnd2).1
      have hd' : ∀ c' ∈ t, ∀ g', c'.data.field_name = some g' →
          dictLookup (dictSet acc g (toFieldInfo c)) g' = none := by
        intro c' hc' g' hg'
        have hne : g' ≠ g := by
          intro he
          subst he
          exact hgnot (List.mem_filterMap.mpr ⟨c', hc', hg'⟩)
        rw [dictLookup_set_ne _ _ _ _ hne]
        exact hd c' (List.mem_cons_of_mem _ hc') g' hg'
      rw [ih (dictSet acc g (toFieldInfo c)) hd' hnd']
      by_cases hf : f = g
      · subst hf
        rw [dictLookup_set_self]
        have hacc : dictLookup acc f = none := hd c (List.mem_cons_self _ _) f hg
        rw [hacc]
        rw [List.find?_cons_of_pos _ (by simp [hg])]
        rfl
      · rw [dictLookup_set_ne _ _ _ _ hf]
        rw [List.find?_cons_of_neg _ (by
          simp only [hg, Option.some.injEq, decide_eq_true_eq]
          intro he
          exact hf he.symm)]

theorem extract_fields_lookup (n : SNode) (hnd : (fieldNamesOf n).Nodup)
    (f : String) :
    dictLookup (extract_fields n) f = (get_field n f).map toFieldInfo := by
  have h := fields_foldl_lookup n.named_children [] f
    (by intro c _ g _; rfl) (by simpa [fieldNamesOf] using hnd)
  simpa [extract_fields, get_field, dictLookup] using h

@[simp] theorem Element_core_mk (c : ElemCore) (f : ElemForest) :
    (Element.mk c f).core = c := rfl

@[simp] theorem Element_childForest_mk (c : ElemCore) (f : ElemForest) :
    (Element.mk c f).childForest = f := rfl

@[simp] theorem flattenL_nil : flattenL [] = [] := rfl

theorem flattenL_cons (e : Element) (t : List Element) :
    flattenL (e :: t) = flattenE e ++ flattenL t := rfl

theorem flattenE_mk (c : ElemCore) (f : ElemForest) :
    flattenE (Element.mk c f) = Element.mk c f :: flattenF f := rfl

theorem flattenF_ofList (l : List Element) :
    flattenF (ElemForest.ofList l) = flattenL l := rfl

theorem flattenL_append (a b : List Element) :
    flattenL (a ++ b) = flattenL a ++ flattenL b := by
  induction a with
  | nil => simp
  | cons x t ih => rw [List.cons_append, flattenL_cons, flattenL_cons, ih,
      List.append_assoc]

theorem wfNode_parts (d : NodeData) (cs : SForest) (h : wfNode (.mk d cs) = true) :
    d.start_row ≤ d.end_row ∧ d.start_byte ≤ d.end_byte ∧
    utf8Len d.text = d.end_byte - d.start_byte ∧
    (fieldNamesOf (.mk d cs)).Nodup ∧
    wfForest d.start_byte d.end_byte cs = true := by
  unfold wfNode at h
  simp only [Bool.and_eq_true, decide_eq_true_eq] at h
  exact ⟨h.1.1.1.1, h.1.1.1.2, h.1.1.2, h.1.2, h.2⟩

theorem wfForest_parts (lo hi : Nat) (c : SNode) (rest : SForest)
    (h : wfForest lo hi (.cons c rest) = true) :
    lo ≤ c.data.start_byte ∧ c.data.end_byte ≤ hi ∧ wfNode c = true ∧
    wfForest c.data.end_byte hi rest = true := by
  unfold wfForest at h
  simp only [Bool.and_eq_true, decide_eq_true_eq] at h
  exact ⟨h.1.1.1, h.1.1.2, h.1.2, h.2⟩

mutual
theorem extract_prop_node (m : List (String × String)) (hook : Hook)
    (Q : ElemCore → Prop)
    (hQ : ∀ n p core, wfNode n = true →
      create_element m hook n p = .ok (some core) → Q core) :
    ∀ (n : SNode) (parent : Option NodeData) (es : List Element),
      wfNode n = true → extract_from_node m hook n parent = .ok es →
      ∀ e ∈ flattenL es, Q e.core
  | .mk d cs, parent, es, hwf, hex, e, he => by
    rw [extract_from_node] at hex
    by_cases hm : (d.is_named && (dictLookup m d.type).isSome) = true
    · rw [if_pos hm] at hex
      cases hce : create_element m hook (.mk d cs) parent with
      | error err => rw [hce] at hex; exact absurd hex (by simp)
      | ok oc =>
        rw [hce] at hex
        cases oc with
        | none =>
          exact extract_prop_forest m hook Q hQ cs d es
            d.start_byte d.end_byte (wfNode_parts d cs hwf).2.2.2.2 hex e he
        | some core =>
          cases hch : extract_children m hook cs d with
          | error err => rw [hch] at hex; exact absurd hex (by simp)
          | ok childs =>
            rw [hch] at hex
            simp only [Except.ok.injEq] at hex
            subst hex
            rw [flattenL_cons, flattenE_mk] at he
            simp only [flattenL_nil, List.append_nil, List.mem_cons] at he
            rcases he with he | he
            · subst he
              exact hQ (.mk d cs) parent core hwf hce
            · rw [flattenF_ofList] at he
              exact extract_prop_forest m hook Q hQ cs d childs
                d.start_byte d.end_byte (wfNode_parts d cs hwf).2.2.2.2 hch e he
    · rw [if_neg hm] at hex
      exact extract_prop_forest m hook Q hQ cs d es
        d.start_byte d.end_byte (wfNode_parts d cs hwf).2.2.2.2 hex e he
theorem extract_prop_forest (m : List (String × String)) (hook : Hook)
    (Q : ElemCore → Prop)
    (hQ : ∀ n p core, wfNode n = true →
      create_element m hook n p = .ok (some core) → Q core) :
    ∀ (f : SForest) (d : NodeData) (es : List Element) (lo hi : Nat),
      wfForest lo hi f = true → extract_children m hook f d = .ok es →
      ∀ e ∈ flattenL es, Q e.core
  | .nil, d, es, lo, hi, hwf, hex, e, he => by
    rw [extract_children] at hex
    simp only [Except.ok.injEq] at hex
    subst hex
    simp at he
  | .cons c rest, d, es, lo, hi, hwf, hex, e, he => by
    rw [extract_children] at hex
    obtain ⟨hlo, hhi, hwfc, hwfr⟩ := wfForest_parts lo hi c rest hwf
    by_cases hn : c.data.is_named = true
    · rw [if_pos hn] at hex
      cases hc1 : extract_from_node m hook c (some d) with
      | error err => rw [hc1] at hex; exact absurd hex (by simp)
      | ok es1 =>
        rw [hc1] at hex
        cases hc2 : extract_children m hook rest d with
        | error err => rw [hc2] at hex; exact absurd hex (by simp)
        | ok es2 =>
          rw [hc2] at hex
          simp only [Except.ok.injEq] at hex
          subst hex
          rw [flattenL_append] at he
          rcases List.mem_append.mp he with he | he
          · exact extract_prop_node m hook Q hQ c (some d) es1 hwfc hc1 e he
          · exact extract_prop_forest m hook Q hQ rest d es2
              c.data.end_byte hi hwfr hc2 e he
    · rw [if_neg hn] at hex
      exact extract_prop_forest m hook Q hQ rest d es
        c.data.end_byte hi hwfr hex e he
end

mutual
theorem extract_count_node (m : List (String × String)) (hook : Hook) :
    ∀ (n : SNode) (parent : Option NodeData) (es : List Element),
      extract_from_node m hook n parent = .ok es →
      (flattenL es).length = produced_from_node m hook n parent
  | .mk d cs, parent, es, hex => by
    rw [extract_from_node] at hex
    rw [produced_from_node]
    by_cases hm : (d.is_named && (dictLookup m d.type).isSome) = true
    · rw [if_pos hm] at hex
      rw [if_pos hm]
      cases hce : create_element m hook (.mk d cs) parent with
      | error err => rw [hce] at hex; exact absurd hex (by simp)
      | ok oc =>
        rw [hce] at hex
        cases oc with
        | none => exact extract_count_forest m hook cs d es hex
        | some core =>
          cases hch : extract_children m hook cs d with
          | error err => rw [hch] at hex; exact absurd hex (by simp)
          | ok childs =>
            rw [hch] at hex
            simp only [Except.ok.injEq] at hex
            subst hex
            show (flattenL [Element.mk core (ElemForest.ofList childs)]).length =
              1 + produced_children m hook cs d
            rw [flattenL_cons, flattenE_mk, flattenF_ofList]
            have hc := extract_count_forest m hook cs d childs hch
            simp only [flattenL_nil, List.append_nil, List.length_cons]
            omega
    · rw [if_neg hm] at hex
      rw [if_neg hm]
      exact extract_count_forest m hook cs d es hex
theorem extract_count_forest (m : List (String × String)) (hook : Hook) :
    ∀ (f : SForest) (d : NodeData) (es : List Element),
      extract_children m hook f d = .ok es →
      (flattenL es).length = produced_children m hook f d
  | .nil, d, es, hex => by
    rw [extract_children] at hex
    simp only [Except.ok.injEq] at hex
    subst hex
    rw [produced_children]
    rfl
  | .cons c rest, d, es, hex => by
    rw [extract_children] at hex
    rw [produced_children]
    by_cases hn : c.data.is_named = true
    · rw [if_pos hn] at hex
      rw [if_pos hn]
      cases hc1 : extract_from_node m hook c (some d) with
      | error err => rw [hc1] at hex; exact absurd hex (by simp)
      | ok es1 =>
        rw [hc1] at hex
        cases hc2 : extract_children m hook rest d with
        | error err => rw [hc2] at hex; exact absurd hex (by simp)
        | ok es2 =>
          rw [hc2] at hex
          simp only [Except.ok.injEq] at hex
          subst hex
          rw [flattenL_append, List.length_append]
          rw [extract_count_node m hook c (some d) es1 hc1]
          rw [extract_count_forest m hook rest d es2 hc2]
    · rw [if_neg hn] at hex
      rw [if_neg hn]
      exact extract_count_forest m hook rest d es hex
end

theorem elemsChain_mono :
    ∀ (es : List Element) (lo lo2 hi hi2 : Nat), lo2 ≤ lo → hi ≤ hi2 →
      elemsChain lo hi es = true → elemsChain lo2 hi2 es = true := by
  intro es
  induction es with
  | nil => intro lo lo2 hi hi2 _ _ _; rfl
  | cons e t ih =>
    intro lo lo2 hi hi2 hl hh hc
    unfold elemsChain at hc ⊢
    simp only [Bool.and_eq_true, decide_eq_true_eq] at hc ⊢
    exact ⟨⟨⟨le_trans hl hc.1.1.1, le_trans hc.1.1.2 hh⟩, hc.1.2⟩,
      ih e.core.end_byte e.core.end_byte hi hi2 le_rfl hh hc.2⟩

theorem elemsChain_append :
    ∀ (es1 es2 : List Element) (lo mid hi : Nat), lo ≤ mid → mid ≤ hi →
      elemsChain lo mid es1 = true → elemsChain mid hi es2 = true →
      elemsChain lo hi (es1 ++ es2) = true := by
  intro es1
  induction es1 with
  | nil =>
    intro es2 lo mid hi hlm hmh h1 h2
    exact elemsChain_mono es2 mid lo hi hi hlm le_rfl h2
  | cons e t ih =>
    intro es2 lo mid hi hlm hmh h1 h2
    rw [List.cons_append]
    unfold elemsChain at h1 ⊢
    simp only [Bool.and_eq_true, decide_eq_true_eq] at h1 ⊢
    exact ⟨⟨⟨h1.1.1.1, le_trans h1.1.1.2 hmh⟩, h1.1.2⟩,
      ih es2 e.core.end_byte mid hi
        (by
          have h3 := h1.1.1.2
          exact h3) hmh h1.2 h2⟩

theorem forestOrdered_ofList :
    ∀ (es : List Element) (lo hi : Nat),
      forestOrderedFrom lo hi (ElemForest.ofList es) = elemsChain lo hi es := by
  intro es
  induction es with
  | nil => intro lo hi; rfl
  | cons e t ih =>
    intro lo hi
    unfold ElemForest.ofList forestOrderedFrom elemsChain
    rw [ih]

theorem create_element_bytes (m : List (String × String)) (hook : Hook)
    (n : SNode) (p : Option NodeData) (core : ElemCore)
    (hB : ∀ e nn pp e2, hook e nn pp = .ok e2 →
      e2.start_byte = e.start_byte ∧ e2.end_byte = e.end_byte)
    (h : create_element m hook n p = .ok (some core)) :
    core.start_byte = n.data.start_byte ∧ core.end_byte = n.data.end_byte := by
  obtain ⟨et, _, _, hh⟩ := create_element_some_inv m hook n p core h
  have hb := hB _ _ _ _ hh
  simpa [buildElement] using hb

mutual
theorem extract_ord_node (m : List (String × String)) (hook : Hook)
    (hB : ∀ e nn pp e2, hook e nn pp = .ok e2 →
      e2.start_byte = e.start_byte ∧ e2.end_byte = e.end_byte) :
    ∀ (n : SNode) (parent : Option NodeData) (es : List Element),
      wfNode n = true → extract_from_node m hook n parent = .ok es →
      elemsChain n.data.start_byte n.data.end_byte es = true
  | .mk d cs, parent, es, hwf, hex => by
    rw [extract_from_node] at hex
    by_cases hm : (d.is_named && (dictLookup m d.type).isSome) = true
    · rw [if_pos hm] at hex
      cases hce : create_element m hook (.mk d cs) parent with
      | error err => rw [hce] at hex; exact absurd hex (by simp)
      | ok oc =>
        rw [hce] at hex
        cases oc with
        | none =>
          exact extract_ord_forest m hook hB cs d es d.start_byte d.end_byte
            (wfNode_parts d cs hwf).2.2.2.2 hex
        | some core =>
          cases hch : extract_children m hook cs d with
          | error err => rw [hch] at hex; exact absurd hex (by simp)
          | ok childs =>
            rw [hch] at hex
            simp only [Except.ok.injEq] at hex
            subst hex
            obtain ⟨hsb, heb⟩ := create_element_bytes m hook (.mk d cs) parent
              core hB hce
            have hch2 := extract_ord_forest m hook hB cs d childs
              d.start_byte d.end_byte (wfNode_parts d cs hwf).2.2.2.2 hch
            unfold elemsChain elemOrdered
            simp only [Element_core_mk, Bool.and_eq_true, decide_eq_true_eq]
            refine ⟨⟨⟨?_, ?_⟩, ⟨?_, ?_⟩⟩, ?_⟩
            · rw [hsb]
            · rw [heb]
            · rw [hsb, heb]
              exact (wfNode_parts d cs hwf).2.1
            · rw [forestOrdered_ofList, hsb, heb]
              exact hch2
            · rfl
    · rw [if_neg hm] at hex
      exact extract_ord_forest m hook hB cs d es d.start_byte d.end_byte
        (wfNode_parts d cs hwf).2.2.2.2 hex
theorem extract_ord_forest (m : List (String × String)) (hook : Hook)
    (hB : ∀ e nn pp e2, hook e nn pp = .ok e2 →
      e2.start_byte = e.start_byte ∧ e2.end_byte = e.end_byte) :
    ∀ (f : SForest) (d : NodeData) (es : List Element) (lo hi : Nat),
      wfForest lo hi f = true → extract_children m hook f d = .ok es →
      elemsChain lo hi es = true
  | .nil, d, es, lo, hi, hwf, hex => by
    rw [extract_children] at hex
    simp only [Except.ok.injEq] at hex
    subst hex
    rfl
  | .cons c rest, d, es, lo, hi, hwf, hex => by
    rw [extract_children] at hex
    obtain ⟨hlo, hhi, hwfc, hwfr⟩ := wfForest_parts lo hi c rest hwf
    have hse : c.data.start_byte ≤ c.data.end_byte := by
      cases c with
      | mk cd ccs => exact (wfNode_parts cd ccs hwfc).2.1
    by_cases hn : c.data.is_named = true
    · rw [if_pos hn] at hex
      cases hc1 : extract_from_node m hook c (some d) with
      | error err => rw [hc1] at hex; exact absurd hex (by simp)
      | ok es1 =>
        rw [hc1] at hex
        cases hc2 : extract_children m hook rest d with
        | error err => rw [hc2] at hex; exact absurd hex (by simp)
        | ok es2 =>
          rw [hc2] at hex
          simp only [Except.ok.injEq] at hex
          subst hex
          have h1 := extract_ord_node m hook hB c (some d) es1 hwfc hc1
          have h2 := extract_ord_forest m hook hB rest d es2
            c.data.end_byte hi hwfr hc2
          have h1w : elemsChain lo c.data.end_byte es1 = true :=
            elemsChain_mono es1 c.data.start_byte lo c.data.end_byte
              c.data.end_byte hlo le_rfl h1
          exact elemsChain_append es1 es2 lo c.data.end_byte hi
            (le_trans hlo hse) hhi h1w h2
    · rw [if_neg hn] at hex
      have h2 := extract_ord_forest m hook hB rest d es
        c.data.end_byte hi hwfr hex
      exact elemsChain_mono es c.data.end_byte lo hi hi
        (le_trans hlo hse) le_rfl h2
end

theorem ts_hook_bytes :
    ∀ (e : ElemCore) (n : SNode) (p : Option NodeData) (e2 : ElemCore),
      ts_hook e n p = .ok e2 →
      e2.start_byte = e.start_byte ∧ e2.end_byte = e.end_byte := by
  intro e n p e2 h
  have he : e2 = tsEnrichElement e n p := by
    simpa [ts_hook] using h.symm
  subst he
  have hs := tsEnrichElement_shape e n p
  exact ⟨hs.2.2.2.2.1, hs.2.2.2.2.2.1⟩

/-- C1 counterexample: on the parse of `export const f = () => 1;`, the
variable element for the lexical declaration sits directly inside the export
wrapper and the promoted function element for `f` has a lexical-declaration
parent directly inside the export wrapper, yet neither is marked exported —
both lookups of `metadata.exported` give `none`, contradicting the claimed
`exported == true` for both the one-level and the two-level case. -/
theorem c1_export_detection_counterexample :
    wfNode c1tree = true ∧ tsExtract c1tree = .ok c1out ∧
    c1out.map (fun e => (e.core.element_type, metaGet e.core "exported")) =
      [("variable", none)] ∧
    c1out.map (fun e => e.children.map
        (fun c2 => (c2.core.element_type, c2.core.name, metaGet c2.core "exported"))) =
      [[("function", "f", none)]] :=
  ⟨by decide, by rfl, by decide, by decide⟩

/-- C1 amended: the TypeScript enrichment marks an element exported if and
only if the direct parent of its node is an export statement AND the element
is dispatched to the function, class or interface hook (directly by kind, or
for a variable through the inline-function promotion). In particular a
lexical-declaration parent — the two-ancestor-level case of the claim —
never yields the exported mark. -/
theorem c1_export_detection_amended :
    ∀ (e : ElemCore) (n : SNode) (p : Option NodeData),
      metaGet e "exported" = none →
      (metaGet (tsEnrichElement e n p) "exported" = some (.b true) ↔
        (isExportParent p = true ∧
          (e.element_type = "function" ∨ e.element_type = "class" ∨
           e.element_type = "interface" ∨
           (e.element_type = "variable" ∧ valueIsFunction n = true)))) := by
  intro e n p h0
  have h0' : dictLookup e.metadata "exported" = none := h0
  unfold tsEnrichElement
  by_cases hf : e.element_type = "function"
  · rw [if_pos hf]
    show dictLookup (tsEnrichFunction e n p).metadata "exported" = _ ↔ _
    rw [tsEnrichFunction_exported]
    by_cases hp : isExportParent p = true
    · simp [hp, hf]
    · simp [hp, h0']
  · rw [if_neg hf]
    by_cases hc : e.element_type = "class"
    · rw [if_pos hc]
      show dictLookup (tsEnrichClass e n p).metadata "exported" = _ ↔ _
      rw [tsEnrichClass_exported]
      by_cases hp : isExportParent p = true
      · simp [hp, hc]
      · simp [hp, h0']
    · rw [if_neg hc]
      by_cases hi : e.element_type = "interface"
      · rw [if_pos hi]
        show dictLookup (tsEnrichInterface e n p).metadata "exported" = _ ↔ _
        rw [tsEnrichInterface_exported]
        by_cases hp : isExportParent p = true
        · simp [hp, hi]
        · simp [hp, h0']
      · rw [if_neg hi]
        by_cases hv : e.element_type = "variable"
        · rw [if_pos hv]
          show dictLookup (tsEnrichVariable e n p).metadata "exported" = _ ↔ _
          rw [tsEnrichVariable_exported]
          by_cases hvf : valueIsFunction n = true
          · by_cases hp : isExportParent p = true
            · simp [hvf, hp, hv, hf, hc, hi]
            · simp [hvf, hp, h0', hf, hc, hi]
          · simp [hvf, h0', hf, hc, hi]
        · rw [if_neg hv]
          show dictLookup e.metadata "exported" = _ ↔ _
          simp [h0', hf, hc, hi, hv]

/-- C1 amended witness at a concrete input: a function element whose node
parent is an export statement is marked exported. -/
theorem c1_export_detection_amended_witness :
    metaGet (buildElement "function" c2fdBad) "exported" = none ∧
    metaGet (tsEnrichElement (buildElement "function" c2fdBad) c2fdBad
        (some c1export.data)) "exported" = some (.b true) :=
  ⟨by decide,
   (c1_export_detection_amended (buildElement "function" c2fdBad) c2fdBad
       (some c1export.data) (by decide)).mpr (by decide)⟩

/-- C2 counterexample: with an enrichment hook that raises for the element
named `bad` (modelling a language-specific `_enrich_element` throwing),
extraction of a program holding the siblings `bad` and `good` returns the
exception — the failing element is not yielded and its sibling `good` is
lost — while the same tree with the non-raising TypeScript hook yields both.
This contradicts the claimed catch-log-and-continue behaviour. -/
theorem c2_enrichment_exception_counterexample :
    extract_all ts_node_type_to_element raising_hook c2tree = .error "boom" ∧
    ((extract_all ts_node_type_to_element ts_hook c2tree).toOption.getD []).map
        (fun e => e.core.name) = ["bad", "good"] :=
  ⟨rfl, by decide⟩

/-- C2 amended: an exception raised while enriching one element propagates
out of `_create_element` and aborts the sibling loop: if creating the
element of the first named child fails with an exception, the whole
children extraction returns that exception and later siblings are never
visited. -/
theorem c2_enrichment_exception_propagates :
    ∀ (m : List (String × String)) (hook : Hook) (d : NodeData) (cs : SForest)
      (rest : SForest) (pd : NodeData) (err : String),
      d.is_named = true →
      (dictLookup m d.type).isSome = true →
      create_element m hook (.mk d cs) (some pd) = .error err →
      extract_children m hook (.cons (.mk d cs) rest) pd = .error err := by
  intro m hook d cs rest pd err hn hk hce
  rw [extract_children]
  rw [if_pos (show (SNode.mk d cs).data.is_named = true from hn)]
  rw [extract_from_node]
  rw [if_pos (by simp [SNode.data, hn, hk])]
  rw [hce]

/-- C2 amended witness: the raising hook fails on `function bad() ...`, and
the failure aborts the sibling list containing `good`. -/
theorem c2_enrichment_exception_propagates_witness :
    c2fdBad.data.is_named = true ∧
    (dictLookup ts_node_type_to_element c2fdBad.data.type).isSome = true ∧
    create_element ts_node_type_to_element raising_hook
      (.mk c2fdBad.data c2fdBad.childForest) (some c2tree.data) = .error "boom" ∧
    extract_children ts_node_type_to_element raising_hook
      (.cons (.mk c2fdBad.data c2fdBad.childForest) (.cons c2fdGood .nil))
      c2tree.data = .error "boom" :=
  ⟨by decide, by decide, by rfl,
   c2_enrichment_exception_propagates ts_node_type_to_element raising_hook
     c2fdBad.data c2fdBad.childForest (.cons c2fdGood .nil) c2tree.data "boom"
     (by decide) (by decide) (by rfl)⟩

/-- C3 counterexample: the TypeScript pattern table maps
`interface_declaration` to the generic kind `type`, not to `interface`. -/
theorem c3_interface_mapping_counterexample :
    dictLookup ts_node_type_to_element "interface_declaration" = some "type" ∧
    ¬ dictLookup ts_node_type_to_element "interface_declaration" =
        some "interface" := by
  constructor
  · decide
  · decide

/-- C3 amended: the direction of the override is reversed from the claim:
the universal base table maps `interface_declaration` to the specific kind
`interface`, and the later TypeScript-specific registration reassigns it to
the generic kind `type`; last-write-wins lookup semantics do hold for the
table-building primitive. -/
theorem c3_pattern_override_amended :
    dictLookup node_type_to_element "interface_declaration" = some "interface" ∧
    dictLookup ts_node_type_to_element "interface_declaration" = some "type" ∧
    (∀ (mm : List (String × String)) (k v : String),
      dictLookup (dictSet mm k v) k = some v) :=
  ⟨by decide, by decide, fun mm k v => dictLookup_set_self mm k v⟩

/-- C4: a matched named node whose kind is not `variable` and whose name
extraction comes back empty produces no element and raises no error, and
extraction continues into the named children at the same output level, so
descendants are kept. -/
theorem c4_nameless_nonvariable_skipped :
    ∀ (m : List (String × String)) (hook : Hook) (d : NodeData) (cs : SForest)
      (parent : Option NodeData) (k : String),
      d.is_named = true →
      dictLookup m d.type = some k →
      k ≠ "variable" →
      pyTruthy (extract_name (.mk d cs)) = false →
      extract_from_node m hook (.mk d cs) parent =
        extract_children m hook cs d := by
  intro m hook d cs parent k hn hk hkv hname
  have hce : create_element m hook (.mk d cs) parent = .ok none := by
    unfold create_element
    simp only [SNode.data]
    rw [hk]
    dsimp only
    rw [if_pos ⟨hname, hkv⟩]
  rw [extract_from_node]
  rw [if_pos (by simp [SNode.data, hn, hk])]
  rw [hce]

/-- C4 witness: the export statement of `export const f = () => 1;` is a
matched node of kind `export` with no name; it is dropped and extraction
recurses into its children, where the lexical declaration still yields its
element. -/
theorem c4_nameless_nonvariable_skipped_witness :
    c1export.data.is_named = true ∧
    dictLookup ts_node_type_to_element c1export.data.type = some "export" ∧
    pyTruthy (extract_name (.mk c1export.data c1export.childForest)) = false ∧
    extract_from_node ts_node_type_to_element ts_hook
        (.mk c1export.data c1export.childForest) none =
      extract_children ts_node_type_to_element ts_hook c1export.childForest
        c1export.data ∧
    extract_children ts_node_type_to_element ts_hook c1export.childForest
        c1export.data = .ok c1out :=
  ⟨by decide, by decide, by decide,
   c4_nameless_nonvariable_skipped ts_node_type_to_element ts_hook
     c1export.data c1export.childForest none "export" (by decide) (by decide)
     (by decide) (by decide),
   by rfl⟩

/-- C5: on a well-formed tree, the TypeScript extraction result is
structurally exclusive: at every level of the returned forest sibling
elements sit in disjoint byte ranges in document order, and the number of
elements in the whole forest equals the number of producing nodes — each
matched subtree is attached exactly once as a child and never re-yielded at
sibling level. -/
theorem c5_structural_exclusivity :
    ∀ (t : SNode) (es : List Element),
      wfNode t = true → tsExtract t = .ok es →
      elemsChain t.data.start_byte t.data.end_byte es = true ∧
      (flattenL es).length =
        produced_from_node ts_node_type_to_element ts_hook t none := by
  intro t es hwf hex
  exact ⟨extract_ord_node ts_node_type_to_element ts_hook ts_hook_bytes t none
      es hwf hex,
    extract_count_node ts_node_type_to_element ts_hook t none es hex⟩

/-- C5 witness on the parse of `export const f = () => 1;`. -/
theorem c5_structural_exclusivity_witness :
    wfNode c1tree = true ∧ tsExtract c1tree = .ok c1out ∧
    elemsChain c1tree.data.start_byte c1tree.data.end_byte c1out = true ∧
    (flattenL c1out).length =
      produced_from_node ts_node_type_to_element ts_hook c1tree none :=
  ⟨by decide, by rfl,
   (c5_structural_exclusivity c1tree c1out (by decide) (by rfl)).1,
   (c5_structural_exclusivity c1tree c1out (by decide) (by rfl)).2⟩

/-- C6: every element of a well-formed tree that was matched as a variable
(its stored concrete node type maps to kind `variable` in the TypeScript
pattern table) and whose `value` structural field is an arrow function or a
function expression leaves the extractor with kind `function` — never
`variable` — and with the function-hook metadata (`parameters`) present,
showing the function enrichment ran on it. -/
theorem c6_variable_promotion :
    ∀ (t : SNode) (es : List Element),
      wfNode t = true → tsExtract t = .ok es →
      ∀ e ∈ flattenL es,
        dictLookup ts_node_type_to_element e.core.node_type = some "variable" →
        ∀ fi, dictLookup e.core.fields "value" = some fi →
          (fi.type = "arrow_function" ∨ fi.type = "function_expression") →
          e.core.element_type = "function" ∧ metaGet e.core "parameters" ≠ none := by
  intro t es hwf hex
  refine extract_prop_node ts_node_type_to_element ts_hook
    (fun core =>
      dictLookup ts_node_type_to_element core.node_type = some "variable" →
      ∀ fi, dictLookup core.fields "value" = some fi →
        (fi.type = "arrow_function" ∨ fi.type = "function_expression") →
        core.element_type = "function" ∧ metaGet core "parameters" ≠ none)
    ?_ t none es hwf hex
  intro n p core hwfn hce hlook fi hfi hft
  obtain ⟨et, hm, _, hh⟩ := create_element_some_inv _ _ _ _ _ hce
  have hcore : core = tsEnrichElement (buildElement et n) n p := by
    simpa [ts_hook] using hh.symm
  subst hcore
  have hs := tsEnrichElement_shape (buildElement et n) n p
  have hnt : (tsEnrichElement (buildElement et n) n p).node_type =
      n.data.type := by rw [hs.2.1]; rfl
  rw [hnt, hm] at hlook
  have het : et = "variable" := by
    simpa using hlook
  have hfl : (tsEnrichElement (buildElement et n) n p).fields =
      extract_fields n := by rw [hs.2.2.2.2.2.2.2]; rfl
  rw [hfl] at hfi
  have hnd : (fieldNamesOf n).Nodup := by
    cases n with
    | mk d cs => exact (wfNode_parts d cs hwfn).2.2.2.1
  rw [extract_fields_lookup n hnd "value"] at hfi
  cases hv : get_field n "value" with
  | none => rw [hv] at hfi; simp at hfi
  | some v =>
    rw [hv] at hfi
    rw [show Option.map toFieldInfo (some v) = some (toFieldInfo v) from rfl]
      at hfi
    have hfi2 : fi = toFieldInfo v := (Option.some.inj hfi).symm
    have hvt : v.data.type = "arrow_function" ∨
        v.data.type = "function_expression" := by
      have ht : fi.type = v.data.type := by rw [hfi2]; rfl
      rwa [ht] at hft
    have hvf : valueIsFunction n = true := by
      unfold valueIsFunction
      rw [hv]
      simpa using hvt
    constructor
    · rw [tsEnrichElement_element_type]
      have hb : (buildElement et n).element_type = "variable" := by
        rw [show (buildElement et n).element_type = et from rfl, het]
      simp [hb, hvf]
    · have hb : (buildElement et n).element_type = "variable" := by
        rw [show (buildElement et n).element_type = et from rfl, het]
      have hdisp : tsEnrichElement (buildElement et n) n p =
          tsEnrichVariable (buildElement et n) n p := by
        unfold tsEnrichElement
        rw [hb]
        simp
      rw [hdisp]
      exact tsEnrichVariable_parameters (buildElement et n) n p hvf

/-- C6 witness on the parse of `export const f = () => 1;`: the declarator
element was matched as a variable, its value field is an arrow function,
and it leaves extraction as a function with parameters metadata. -/
theorem c6_variable_promotion_witness :
    wfNode c1tree = true ∧ tsExtract c1tree = .ok c1out ∧
    c1innerElem ∈ flattenL c1out ∧
    dictLookup ts_node_type_to_element c1innerElem.core.node_type =
      some "variable" ∧
    dictLookup c1innerElem.core.fields "value" =
      some { type := "arrow_function", text := "() => 1",
             start_line := 1, end_line := 1 } ∧
    c1innerElem.core.element_type = "function" ∧
    metaGet c1innerElem.core "parameters" ≠ none :=
  ⟨by decide, by rfl, by decide, by decide, by decide,
   (c6_variable_promotion c1tree c1out (by decide) (by rfl) c1innerElem
     (by decide) (by decide)
     { type := "arrow_function", text := "() => 1",
       start_line := 1, end_line := 1 } (by decide) (by decide)).1,
   (c6_variable_promotion c1tree c1out (by decide) (by rfl) c1innerElem
     (by decide) (by decide)
     { type := "arrow_function", text := "() => 1",
       start_line := 1, end_line := 1 } (by decide) (by decide)).2⟩

/-- C7 counterexample: on the well-formed parse of `const é = 1;` (a 2-byte
UTF-8 identifier) the extracted elements have decoded-text character length
different from `end_byte - start_byte`: the outer element spans 13 bytes but
its decoded text has 12 characters, so the claimed equality of text length
and byte-range length fails on multi-byte sources. -/
theorem c7_text_length_counterexample :
    wfNode c7tree = true ∧
    ((tsExtract c7tree).toOption.getD []).map
        (fun e => (e.core.text.length, e.core.end_byte - e.core.start_byte)) =
      [(12, 13)] ∧
    ((tsExtract c7tree).toOption.getD []).all
        (fun e => e.core.text.length = e.core.end_byte - e.core.start_byte) =
      false :=
  ⟨by decide, by decide, by decide⟩

/-- C7 amended: on a well-formed tree every extracted element satisfies
`start_line ≤ end_line`, and the UTF-8 byte length of its decoded text —
not its character length — equals `end_byte - start_byte`. -/
theorem c7_range_consistency_amended :
    ∀ (t : SNode) (es : List Element),
      wfNode t = true → tsExtract t = .ok es →
      ∀ e ∈ flattenL es,
        e.core.start_line ≤ e.core.end_line ∧
        utf8Len e.core.text = e.core.end_byte - e.core.start_byte := by
  intro t es hwf hex
  refine extract_prop_node ts_node_type_to_element ts_hook
    (fun core => core.start_line ≤ core.end_line ∧
      utf8Len core.text = core.end_byte - core.start_byte)
    ?_ t none es hwf hex
  intro n p core hwfn hce
  obtain ⟨et, _, _, hh⟩ := create_element_some_inv _ _ _ _ _ hce
  have hcore : core = tsEnrichElement (buildElement et n) n p := by
    simpa [ts_hook] using hh.symm
  subst hcore
  have hs := tsEnrichElement_shape (buildElement et n) n p
  cases n with
  | mk d cs =>
    obtain ⟨hr, _, hu, _, _⟩ := wfNode_parts d cs hwfn
    constructor
    · rw [hs.2.2.1, hs.2.2.2.1]
      show d.start_row + 1 ≤ d.end_row + 1
      omega
    · rw [hs.2.2.2.2.2.2.1, hs.2.2.2.2.1, hs.2.2.2.2.2.1]
      exact hu

/-- C7 amended witness on `function bad() ...` extracted on its own. -/
theorem c7_range_consistency_amended_witness :
    wfNode c2fdBad = true ∧ tsExtract c2fdBad = .ok [badFnElem] ∧
    badFnElem ∈ flattenL [badFnElem] ∧
    (badFnElem.core.start_line ≤ badFnElem.core.end_line ∧
     utf8Len badFnElem.core.text =
       badFnElem.core.end_byte - badFnElem.core.start_byte) :=
  ⟨by decide, by rfl, by decide,
   c7_range_consistency_amended c2fdBad [badFnElem] (by decide) (by rfl)
     badFnElem (by decide)⟩

/-- C8 counterexample: with the default analyzers registered and the
discovered language analyzers loaded, resolving a filename with an
unregistered extension returns `None` — not a default no-op analyzer
bundle. -/
theorem c8_registry_fallback_counterexample :
    AnalyzerRegistry.get_analyzer_for_file fullRegistry "notes.txt" = none := by
  decide

/-- C8 amended: the registry returns `None` for an extension registered by
nobody; `DefaultAnalyzer` no-op bundles exist, but only behind the fixed
extension list that `register_defaults` registers explicitly (for example
`.json`), and such a bundle performs no call and no structure extraction. -/
theorem c8_registry_fallback_amended :
    AnalyzerRegistry.get_analyzer_for_file fullRegistry "notes.txt" = none ∧
    AnalyzerRegistry.get_analyzer_for_file fullRegistry "config.json" =
      some (.DefaultAnalyzer [".json"] "json") ∧
    (∀ chunk : CodeChunk,
      DefaultAnalyzer_calls chunk = [] ∧ DefaultAnalyzer_structure chunk = []) :=
  ⟨by decide, by decide, fun _ => ⟨rfl, rfl⟩⟩

/-- C9: on the parse of `function a() ... b(1, 2); ...`, the TypeScript call
extraction yields exactly one relationship: caller `a`, callee `b`,
arguments `1` and `2`. -/
theorem c9_call_extraction_scenario :
    ts_extract_call_relationships chunk9 tree9 =
      [{ filename := "test.ts", caller := "a", callee := "b",
         arguments := ["1", "2"], line := 1, column := 16,
         context := "function a() \x7b b(1, 2); \x7d" }] := by
  decide

/-- C10: analyzer resolution lowercases the extension before the lookup, so
two filenames whose extensions agree up to letter case resolve to the same
analyzer in every registry. -/
theorem c10_case_insensitive_extension :
    ∀ (r : AnalyzerRegistry) (f1 f2 : String),
      pyLower (splitext f1).2 = pyLower (splitext f2).2 →
      r.get_analyzer_for_file f1 = r.get_analyzer_for_file f2 := by
  intro r f1 f2 h
  unfold AnalyzerRegistry.get_analyzer_for_file
  rw [h]

/-- C10 witness: `App.TS` and `app.ts` resolve identically, namely to the
TypeScript analyzer. -/
theorem c10_case_insensitive_extension_witness :
    pyLower (splitext "App.TS").2 = pyLower (splitext "app.ts").2 ∧
    AnalyzerRegistry.get_analyzer_for_file fullRegistry "App.TS" =
      AnalyzerRegistry.get_analyzer_for_file fullRegistry "app.ts" ∧
    AnalyzerRegistry.get_analyzer_for_file fullRegistry "App.TS" =
      some .TypeScriptAnalyzer :=
  ⟨by decide,
   c10_case_insensitive_extension fullRegistry "App.TS" "app.ts" (by decide),
   by decide⟩

end CodeSitter
